import Mathlib

/-!
# Verification of the klang DSP primitives

Shallow embedding of the two C extension modules of the klang repository:

* `src/klang/audio/_filters.c` — a fixed-length ring buffer and three
  ring-buffer based filters (forward comb, backward comb, echo);
* `src/klang/audio/_envelope.c` — an ADSR envelope generator driven by a
  one-pole exponential filter.

C `double` values are modelled as elements of a linear ordered field
(instantiated at `ℚ` for executable statements and at `ℝ` where the
coefficient computation needs `exp`/`log`).  The mutable C structs become
immutable Lean structures; every mutating C function becomes a function
returning the updated structure.  Fallible operations return `Option`.
-/

namespace Klang

/-- `MAX_RING_BUFFER_CAPACITY` from `_filters.c`: `60 * 44100`. -/
def MAX_RING_BUFFER_CAPACITY : Nat := 60 * 44100

/-- The `RingBuffer` struct of `_filters.c`: a fixed `length`, a read/write
`position` and the sample `data`.  The flexible C array member becomes a
`List`. -/
structure RingBuffer (α : Type) where
  length : Nat
  position : Nat
  data : List α

/-- Well-formedness of a ring buffer as maintained by `RingBuffer_create`
and `RingBuffer_append`: the data really has `length` cells and the
position is in range. -/
def RingBuffer.WF {α : Type} (b : RingBuffer α) : Prop :=
  b.data.length = b.length ∧ b.position < b.length

/-- `RingBuffer_create` from `_filters.c`: reject a length above
`MAX_RING_BUFFER_CAPACITY` (the C function returns `NULL`, modelled as
`none`), otherwise return a zero-initialised buffer with position `0`.
(The `malloc`-failure path aborts the process and has no result at all, so
it does not appear in the model.) -/
def RingBuffer.create {α : Type} [Zero α] (length : Nat) :
    Option (RingBuffer α) :=
  if MAX_RING_BUFFER_CAPACITY < length then none
  else some { length := length, position := 0, data := List.replicate length 0 }

/-- `RingBuffer_peek` from `_filters.c`: return `data[position]` without any
mutation (the embedding is purely functional, so immutability of the buffer
and of the position is structural: `peek` only returns a sample). -/
def RingBuffer.peek {α : Type} [Zero α] (b : RingBuffer α) : α :=
  b.data.getD b.position 0

/-- `RingBuffer_append` from `_filters.c`: write `data[position] = v`, then
advance `position = (position + 1) % length`. -/
def RingBuffer.append {α : Type} (b : RingBuffer α) (v : α) : RingBuffer α :=
  { b with data := b.data.set b.position v
           position := (b.position + 1) % b.length }

/-- The `RingBufferFilterObject` struct of `_filters.c`: a gain `alpha` and
an owned ring buffer.  All three filter variants share this struct. -/
structure RingBufferFilterObject (α : Type) where
  alpha : α
  ringBuffer : RingBuffer α

/-- `RingBufferFilter_new` from `_filters.c`, the shared `tp_new` of all
three filter types (`ForwardCombFilter`, `BackwardCombFilter`,
`EchoFilter`): create the ring buffer for the requested length; if
`RingBuffer_create` refuses (length above capacity), the constructor fails
and no filter object is produced (`none`). -/
def RingBufferFilter_new {α : Type} [Zero α] (length : Nat) (alpha : α) :
    Option (RingBufferFilterObject α) :=
  match RingBuffer.create (α := α) length with
  | none => none
  | some rb => some { alpha := alpha, ringBuffer := rb }

/-- `ForwardCombFilter_filter` from `_filters.c`, restricted to the
per-sample loop over a (1-D) input sequence: for each input `x`, output
`y = x + alpha * peek()` and append `x` to the ring buffer.  Returns the
output sequence together with the updated filter state. -/
def ForwardCombFilter_filter {α : Type} [Zero α] [Add α] [Mul α]
    (self : RingBufferFilterObject α) :
    List α → List α × RingBufferFilterObject α
  | [] => ([], self)
  | x :: xs =>
      let y := x + self.alpha * self.ringBuffer.peek
      let self1 : RingBufferFilterObject α :=
        { self with ringBuffer := self.ringBuffer.append x }
      let rest := ForwardCombFilter_filter self1 xs
      (y :: rest.1, rest.2)

/-- `BackwardCombFilter_filter` from `_filters.c`: for each input `x`,
output `y = x + alpha * peek()` and append the output `y` itself to the
ring buffer. -/
def BackwardCombFilter_filter {α : Type} [Zero α] [Add α] [Mul α]
    (self : RingBufferFilterObject α) :
    List α → List α × RingBufferFilterObject α
  | [] => ([], self)
  | x :: xs =>
      let y := x + self.alpha * self.ringBuffer.peek
      let self1 : RingBufferFilterObject α :=
        { self with ringBuffer := self.ringBuffer.append y }
      let rest := BackwardCombFilter_filter self1 xs
      (y :: rest.1, rest.2)

/-- `EchoFilter_filter` from `_filters.c`: for each input `x`, output
`y = peek()` and append `alpha * y + x` to the ring buffer. -/
def EchoFilter_filter {α : Type} [Zero α] [Add α] [Mul α]
    (self : RingBufferFilterObject α) :
    List α → List α × RingBufferFilterObject α
  | [] => ([], self)
  | x :: xs =>
      let y := self.ringBuffer.peek
      let self1 : RingBufferFilterObject α :=
        { self with ringBuffer := self.ringBuffer.append (self.alpha * y + x) }
      let rest := EchoFilter_filter self1 xs
      (y :: rest.1, rest.2)

/-- Spec-side description of one ForwardComb step (from the spec's
recurrence table): given the gain, the input sample and the delayed sample
`d`, the pair (output, value appended to the buffer) is
`(x + alpha·d, x)`. -/
def specForwardCombStep {α : Type} [Add α] [Mul α] (alpha x d : α) : α × α :=
  (x + alpha * d, x)

/-- Spec-side description of one BackwardComb step: output `x + alpha·d`,
append the output. -/
def specBackwardCombStep {α : Type} [Add α] [Mul α] (alpha x d : α) : α × α :=
  (x + alpha * d, x + alpha * d)

/-- Spec-side description of one Echo step: output `d`, append
`alpha·d + x`. -/
def specEchoStep {α : Type} [Add α] [Mul α] (alpha x d : α) : α × α :=
  (d, alpha * d + x)

/-- Spec-side driver (from the spec's words): process the input
element by element in order, taking `d = peek()` before each step, emitting
the step's output and appending the step's append-value. -/
def specFilterRun {α : Type} [Zero α] (step : α → α → α → α × α)
    (self : RingBufferFilterObject α) :
    List α → List α × RingBufferFilterObject α
  | [] => ([], self)
  | x :: xs =>
      let d := self.ringBuffer.peek
      let p := step self.alpha x d
      let rest := specFilterRun step
        { self with ringBuffer := self.ringBuffer.append p.2 } xs
      (p.1 :: rest.1, rest.2)

/-- The `Stage` enum of `_envelope.c`: the five ADSR envelope stages. -/
inductive Stage where
  | off
  | attacking
  | decaying
  | sustaining
  | releasing
deriving DecidableEq

/-- `clip` from `_envelope.c`: clamp a value to `[lower, upper]` as
`fmin(fmax(value, lower), upper)`. -/
def clip {α : Type} [LinearOrder α] (value lower upper : α) : α :=
  min (max value lower) upper

/-- The `Envelope` struct of `_envelope.c`: the ADSR parameters, the
state (stage and last emitted value) and the six derived coefficient/base
fields. -/
structure Envelope (α : Type) where
  attack : α
  decay : α
  sustain : α
  release : α
  dt : α
  overshoot : α
  retrigger : Bool
  loop : Bool
  stage : Stage
  value : α
  attackCoef : α
  attackBase : α
  decayCoef : α
  decayBase : α
  releaseCoef : α
  releaseBase : α

/-- `Envelope_change_stage` from `_envelope.c`: put the envelope in another
stage. -/
def Envelope.changeStage {α : Type} (e : Envelope α) (s : Stage) :
    Envelope α :=
  { e with stage := s }

/-- `Envelope_gate` from `_envelope.c`: if `loop` is not set, a true
trigger moves to `ATTACKING` when `retrigger` holds or the stage is `OFF`
or `RELEASING`; a false trigger moves to `RELEASING` when the stage is
`ATTACKING`, `DECAYING` or `SUSTAINING`; in all other cases nothing
happens. -/
def Envelope.gate {α : Type} (e : Envelope α) (trigger : Bool) :
    Envelope α :=
  if !e.loop then
    if trigger then
      if e.retrigger = true ∨ e.stage = Stage.off ∨ e.stage = Stage.releasing
      then e.changeStage Stage.attacking
      else e
    else
      if e.stage = Stage.attacking ∨ e.stage = Stage.decaying ∨
          e.stage = Stage.sustaining
      then e.changeStage Stage.releasing
      else e
  else e

/-- The `switch` of `Envelope_single_sample` from `_envelope.c`: given the
current state, the new value (`newValue`, after the per-stage clamping) and
the stage the envelope moves to.  `UPPER = 1` and `LOWER = 0` are inlined. -/
def Envelope.stepAux {α : Type} [LinearOrderedField α] (e : Envelope α) :
    α × Stage :=
  match e.stage with
  | Stage.off =>
      (0, if e.loop then Stage.attacking else Stage.off)
  | Stage.attacking =>
      let newValue := e.attackBase + e.value * e.attackCoef
      if 1 ≤ newValue then (1, Stage.decaying)
      else (newValue, Stage.attacking)
  | Stage.decaying =>
      let newValue := e.decayBase + e.value * e.decayCoef
      if newValue ≤ e.sustain then (e.sustain, Stage.sustaining)
      else (newValue, Stage.decaying)
  | Stage.sustaining =>
      (e.sustain, if e.loop then Stage.releasing else Stage.sustaining)
  | Stage.releasing =>
      let newValue := e.releaseBase + e.value * e.releaseCoef
      if newValue ≤ 0 then
        (0, if e.loop then Stage.attacking else Stage.off)
      else (newValue, Stage.releasing)

/-- `Envelope_single_sample` from `_envelope.c`: run the per-stage switch,
store the new value (`self->value = newValue`) and return it together with
the updated envelope. -/
def Envelope.singleSample {α : Type} [LinearOrderedField α]
    (e : Envelope α) : α × Envelope α :=
  ((e.stepAux).1, { e with value := (e.stepAux).1, stage := (e.stepAux).2 })

/-- The fill loop of `Envelope_sample` from `_envelope.c`: emit `n`
sequential single samples, in order, threading the envelope state. -/
def Envelope.sample {α : Type} [LinearOrderedField α]
    (e : Envelope α) : Nat → List α × Envelope α
  | 0 => ([], e)
  | n + 1 =>
      let p := e.singleSample
      let rest := p.2.sample n
      (p.1 :: rest.1, rest.2)

/-- Spec-side description of one single-sample advance, exactly as the
claim's stage table states it: in Attacking the new value is
`attackBase + value·attackCoef`, clamped to `1` (stage `Decaying`) when
`≥ 1`; in Decaying the new value is `decayBase + value·decayCoef`, clamped
up to `sustain` (stage `Sustaining`) when `≤ sustain`; in Releasing the new
value is `releaseBase + value·releaseCoef`, clamped to `0` when `≤ 0` with
stage `Off` (`Attacking` when `loop`); in Off the value holds at `0`
(stage `Attacking` when `loop`); in Sustaining it holds at `sustain`
(stage `Releasing` when `loop`). -/
def specEnvelopeStep {α : Type} [LinearOrderedField α] (e : Envelope α) :
    α × Envelope α :=
  match e.stage with
  | Stage.off =>
      (0, { e with value := 0
                   stage := if e.loop then Stage.attacking else Stage.off })
  | Stage.attacking =>
      let nv := e.attackBase + e.value * e.attackCoef
      if 1 ≤ nv then (1, { e with value := 1, stage := Stage.decaying })
      else (nv, { e with value := nv })
  | Stage.decaying =>
      let nv := e.decayBase + e.value * e.decayCoef
      if nv ≤ e.sustain then
        (e.sustain, { e with value := e.sustain, stage := Stage.sustaining })
      else (nv, { e with value := nv })
  | Stage.sustaining =>
      (e.sustain,
       { e with value := e.sustain
                stage := if e.loop then Stage.releasing else Stage.sustaining })
  | Stage.releasing =>
      let nv := e.releaseBase + e.value * e.releaseCoef
      if nv ≤ 0 then
        (0, { e with value := 0
                     stage := if e.loop then Stage.attacking else Stage.off })
      else (nv, { e with value := nv })

/-- Spec-side description of the stage `gate` leaves the envelope in,
exactly as the claim states it: with `loop` the stage is untouched;
otherwise `gate true` yields Attacking exactly when `retrigger` holds or
the stage is Off or Releasing, `gate false` yields Releasing exactly when
the stage is Attacking, Decaying or Sustaining, and the stage is unchanged
in every other case. -/
def specGateStage {α : Type} (e : Envelope α) (trigger : Bool) : Stage :=
  if e.loop then e.stage
  else if trigger then
    if e.retrigger = true ∨ e.stage = Stage.off ∨ e.stage = Stage.releasing
    then Stage.attacking else e.stage
  else
    if e.stage = Stage.attacking ∨ e.stage = Stage.decaying ∨
        e.stage = Stage.sustaining
    then Stage.releasing else e.stage

/-- `calculate_exponential_coefficient` from `_envelope.c`:
`rate ≤ 0 ? 0 : exp(-log((1 + overshoot) / overshoot) / rate)`. -/
noncomputable def calculate_exponential_coefficient
    (rate overshoot : ℝ) : ℝ :=
  if rate ≤ 0 then 0
  else Real.exp (-Real.log ((1 + overshoot) / overshoot) / rate)

/-- `Envelope_compute_base_values_and_coefficients` from `_envelope.c`:
recompute the three (coefficient, base) pairs from the current parameters,
with `rate = duration / dt`, `UPPER = 1`, `LOWER = 0`. -/
noncomputable def Envelope.computeBaseValuesAndCoefficients
    (e : Envelope ℝ) : Envelope ℝ :=
  let ac := calculate_exponential_coefficient (e.attack / e.dt) e.overshoot
  let dc := calculate_exponential_coefficient (e.decay / e.dt) e.overshoot
  let rc := calculate_exponential_coefficient (e.release / e.dt) e.overshoot
  { e with attackCoef := ac
           attackBase := (1 + e.overshoot) * (1 - ac)
           decayCoef := dc
           decayBase := (e.sustain - e.overshoot) * (1 - dc)
           releaseCoef := rc
           releaseBase := (0 - e.overshoot) * (1 - rc) }

/-- `Envelope_new` followed by `Envelope_init` from `_envelope.c`: store
the parsed arguments unchecked, clamp `overshoot` to `[1e-9, 1e9]`,
recompute the coefficient/base pairs and, when `loop` is set, start in
`ATTACKING` instead of `OFF`.  The C initializer performs no range
validation of `attack`, `decay`, `sustain`, `release` or `dt`. -/
noncomputable def Envelope_init
    (attack decay sustain release dt overshoot : ℝ)
    (retrigger loop : Bool) : Envelope ℝ :=
  let e : Envelope ℝ :=
    { attack := attack
      decay := decay
      sustain := sustain
      release := release
      dt := dt
      overshoot := clip overshoot (1 / 1000000000) 1000000000
      retrigger := retrigger
      loop := loop
      stage := Stage.off
      value := 0
      attackCoef := 0
      attackBase := 0
      decayCoef := 0
      decayBase := 0
      releaseCoef := 0
      releaseBase := 0 }
  let e := e.computeBaseValuesAndCoefficients
  if loop then e.changeStage Stage.attacking else e

/-- Error conditions of the envelope setters (`PyExc_ValueError` in the C
code, the spec's `InvalidArgument`). -/
inductive EnvError where
  | invalidArgument
deriving DecidableEq

/-- `Envelope_set_attack` from `_envelope.c`: reject a negative attack
(returning the envelope untouched, since the C code validates before any
mutation), otherwise store it and recompute the coefficient/base pairs. -/
noncomputable def Envelope_set_attack (e : Envelope ℝ) (v : ℝ) :
    Envelope ℝ × Option EnvError :=
  if v < 0 then (e, some EnvError.invalidArgument)
  else (({ e with attack := v }).computeBaseValuesAndCoefficients, none)

/-- `Envelope_set_decay` from `_envelope.c`: reject a negative decay,
otherwise store it and recompute. -/
noncomputable def Envelope_set_decay (e : Envelope ℝ) (v : ℝ) :
    Envelope ℝ × Option EnvError :=
  if v < 0 then (e, some EnvError.invalidArgument)
  else (({ e with decay := v }).computeBaseValuesAndCoefficients, none)

/-- `Envelope_set_sustain` from `_envelope.c`: reject a sustain outside
`[LOWER, UPPER] = [0, 1]`, otherwise store it and recompute. -/
noncomputable def Envelope_set_sustain (e : Envelope ℝ) (v : ℝ) :
    Envelope ℝ × Option EnvError :=
  if ¬ (0 ≤ v ∧ v ≤ 1) then (e, some EnvError.invalidArgument)
  else (({ e with sustain := v }).computeBaseValuesAndCoefficients, none)

/-- `Envelope_set_release` from `_envelope.c`: reject a negative release,
otherwise store it and recompute. -/
noncomputable def Envelope_set_release (e : Envelope ℝ) (v : ℝ) :
    Envelope ℝ × Option EnvError :=
  if v < 0 then (e, some EnvError.invalidArgument)
  else (({ e with release := v }).computeBaseValuesAndCoefficients, none)

/-- `Envelope_set_overshoot` from `_envelope.c`: reject a negative
overshoot, otherwise clamp it to `[1e-9, 1e9]`, store and recompute. -/
noncomputable def Envelope_set_overshoot (e : Envelope ℝ) (v : ℝ) :
    Envelope ℝ × Option EnvError :=
  if v < 0 then (e, some EnvError.invalidArgument)
  else
    (({ e with
          overshoot := clip v (1 / 1000000000) 1000000000
        }).computeBaseValuesAndCoefficients, none)

/-- The documented parameter ranges of the envelope: nonnegative stage
durations, `sustain ∈ [0, 1]`, `dt > 0` and `overshoot ∈ [1e-9, 1e9]` (the
clamp range of construction and of the overshoot setter). -/
def Envelope.ParamsInRange (e : Envelope ℝ) : Prop :=
  0 ≤ e.attack ∧ 0 ≤ e.decay ∧ 0 ≤ e.release ∧
  0 ≤ e.sustain ∧ e.sustain ≤ 1 ∧ 0 < e.dt ∧
  1 / 1000000000 ≤ e.overshoot ∧ e.overshoot ≤ 1000000000

/-- The six derived fields agree with
`Envelope_compute_base_values_and_coefficients`, as every construction and
setter path of the C code guarantees. -/
def Envelope.CoefsConsistent (e : Envelope ℝ) : Prop :=
  e.attackCoef =
      calculate_exponential_coefficient (e.attack / e.dt) e.overshoot ∧
  e.attackBase = (1 + e.overshoot) * (1 - e.attackCoef) ∧
  e.decayCoef =
      calculate_exponential_coefficient (e.decay / e.dt) e.overshoot ∧
  e.decayBase = (e.sustain - e.overshoot) * (1 - e.decayCoef) ∧
  e.releaseCoef =
      calculate_exponential_coefficient (e.release / e.dt) e.overshoot ∧
  e.releaseBase = (0 - e.overshoot) * (1 - e.releaseCoef)

/-- A well-formed envelope: parameters in the documented ranges and derived
fields consistent with them. -/
def Envelope.WellFormed (e : Envelope ℝ) : Prop :=
  e.ParamsInRange ∧ e.CoefsConsistent

/-- A concrete well-formed envelope used by the witnesses: zero-length
stages (so all three coefficients are `0`), `sustain = 1/2`, `dt = 1`,
`overshoot = 1/1000`, stage `OFF`, value `0`. -/
noncomputable def sampleEnvelope : Envelope ℝ :=
  { attack := 0
    decay := 0
    sustain := 1 / 2
    release := 0
    dt := 1
    overshoot := 1 / 1000
    retrigger := false
    loop := false
    stage := Stage.off
    value := 0
    attackCoef := 0
    attackBase := 1 + 1 / 1000
    decayCoef := 0
    decayBase := 1 / 2 - 1 / 1000
    releaseCoef := 0
    releaseBase := 0 - 1 / 1000 }

/-! ## Ring buffer lemmas -/

theorem RingBuffer.append_length {α : Type} (b : RingBuffer α) (v : α) :
    (b.append v).length = b.length := rfl

theorem RingBuffer.append_data_length {α : Type} (b : RingBuffer α)
    (v : α) : (b.append v).data.length = b.data.length := by
  simp [RingBuffer.append]

theorem RingBuffer.append_position {α : Type} (b : RingBuffer α) (v : α) :
    (b.append v).position = (b.position + 1) % b.length := rfl

theorem RingBuffer.foldl_append_length {α : Type} (ws : List α) :
    ∀ c : RingBuffer α, (ws.foldl RingBuffer.append c).length = c.length := by
  induction ws with
  | nil => intro c; rfl
  | cons w ws ih => intro c; simpa using ih (c.append w)

theorem RingBuffer.foldl_append_data_length {α : Type} (ws : List α) :
    ∀ c : RingBuffer α,
      (ws.foldl RingBuffer.append c).data.length = c.data.length := by
  induction ws with
  | nil => intro c; rfl
  | cons w ws ih =>
      intro c
      simpa [RingBuffer.append_data_length] using ih (c.append w)

theorem RingBuffer.foldl_append_position {α : Type} (ws : List α) :
    ∀ c : RingBuffer α, c.position < c.length →
      (ws.foldl RingBuffer.append c).position =
        (c.position + ws.length) % c.length := by
  induction ws with
  | nil =>
      intro c hc
      simpa using (Nat.mod_eq_of_lt hc).symm
  | cons w ws ih =>
      intro c hc
      have hL : 0 < c.length := Nat.lt_of_le_of_lt (Nat.zero_le _) hc
      have h1 : (c.append w).position < (c.append w).length := by
        simpa [RingBuffer.append_position, RingBuffer.append_length] using
          Nat.mod_lt _ hL
      have h2 := ih (c.append w) h1
      simp only [List.foldl_cons, h2, RingBuffer.append_position,
        RingBuffer.append_length, List.length_cons]
      rw [Nat.mod_add_mod]
      congr 1
      omega

theorem List.getD_set_ne {α : Type} (l : List α) (m n : Nat) (a d : α)
    (h : m ≠ n) : (l.set m a).getD n d = l.getD n d := by
  rcases Nat.lt_or_ge n l.length with h' | h'
  · rw [List.getD_eq_getElem _ _ (by simpa using h'),
      List.getD_eq_getElem _ _ h']
    exact List.getElem_set_ne h _
  · rw [List.getD_eq_default _ _ (by simpa using h'),
      List.getD_eq_default _ _ h']

theorem Nat.add_mod_ne_self (p q L : Nat) (hp : p < L) (hq1 : 0 < q)
    (hq2 : q < L) : (p + q) % L ≠ p := by
  intro h
  rcases Nat.lt_or_ge (p + q) L with h1 | h1
  · rw [Nat.mod_eq_of_lt h1] at h; omega
  · rw [Nat.mod_eq_sub_mod h1,
      Nat.mod_eq_of_lt (by omega : p + q - L < L)] at h
    omega

theorem RingBuffer.foldl_append_getD_of_untouched {α : Type} [Zero α]
    (p : Nat) (ws : List α) :
    ∀ c : RingBuffer α, c.data.length = c.length →
      c.position < c.length → p < c.length →
      (∀ j < ws.length, (c.position + j) % c.length ≠ p) →
      (ws.foldl RingBuffer.append c).data.getD p 0 = c.data.getD p 0 := by
  induction ws with
  | nil => intro c _ _ _ _; rfl
  | cons w ws ih =>
      intro c hdata hcpos hplen hfree
      have hL : 0 < c.length := Nat.lt_of_le_of_lt (Nat.zero_le _) hcpos
      have hwrite : c.position ≠ p := by
        have := hfree 0 (Nat.succ_pos _)
        simpa [Nat.mod_eq_of_lt hcpos] using this
      have hset : (c.append w).data.getD p 0 = c.data.getD p 0 :=
        List.getD_set_ne _ _ _ _ _ hwrite
      have hrec := ih (c.append w)
        (by simp [RingBuffer.append_data_length, RingBuffer.append_length,
              hdata])
        (by simpa [RingBuffer.append_position, RingBuffer.append_length]
              using Nat.mod_lt _ hL)
        (by simpa [RingBuffer.append_length] using hplen)
        (by
          intro j hj
          have := hfree (j + 1) (by simpa using Nat.succ_lt_succ hj)
          simpa [RingBuffer.append_position, RingBuffer.append_length,
            Nat.mod_add_mod, Nat.add_assoc, Nat.add_comm 1 j] using this)
      simp only [List.foldl_cons]
      exact hrec.trans hset

/-- **C6.**  A ring buffer of length `L ≥ 1` is a pure delay line of
exactly `L` samples: after `append v` followed by exactly `L - 1` further
appends, `peek` returns `v`.  (`peek` takes the buffer as a value and only
returns a sample, so it can mutate neither the data nor the position; this
is structural in the functional embedding and matches
`RingBuffer_peek`.) -/
theorem ringBuffer_delay_line (b : RingBuffer ℚ) (v : ℚ) (vs : List ℚ)
    (hWF : b.WF) (hone : 1 ≤ b.length) (hlen : vs.length = b.length - 1) :
    (vs.foldl RingBuffer.append (b.append v)).peek = v := by
  obtain ⟨hdata, hpos⟩ := hWF
  have hL : 0 < b.length := hone
  have hb1pos : (b.append v).position < (b.append v).length := by
    simpa [RingBuffer.append_position, RingBuffer.append_length] using
      Nat.mod_lt _ hL
  have hposition :
      (vs.foldl RingBuffer.append (b.append v)).position = b.position := by
    rw [RingBuffer.foldl_append_position vs (b.append v) hb1pos]
    simp only [RingBuffer.append_position, RingBuffer.append_length, hlen]
    rw [Nat.mod_add_mod]
    have : b.position + 1 + (b.length - 1) = b.position + b.length := by
      omega
    rw [this, Nat.add_mod_right]
    exact Nat.mod_eq_of_lt hpos
  have hvalue :
      (vs.foldl RingBuffer.append (b.append v)).data.getD b.position 0
        = v := by
    rw [RingBuffer.foldl_append_getD_of_untouched b.position vs (b.append v)
      (by simp [RingBuffer.append_data_length, RingBuffer.append_length,
        hdata])
      hb1pos
      (by simpa [RingBuffer.append_length] using hpos)
      (by
        intro j hj
        simp only [RingBuffer.append_position, RingBuffer.append_length]
        rw [Nat.mod_add_mod]
        have : b.position + 1 + j = b.position + (j + 1) := by omega
        rw [this]
        exact Nat.add_mod_ne_self b.position (j + 1) b.length hpos
          (Nat.succ_pos _) (by omega))]
    show (b.data.set b.position v).getD b.position 0 = v
    rw [List.getD_eq_getElem _ _ (by simp [hdata, hpos])]
    exact List.getElem_set_self (by simp [hdata, hpos])
  unfold RingBuffer.peek
  rw [hposition, hvalue]

/-- Witness for `ringBuffer_delay_line` at a concrete buffer of length 3. -/
theorem ringBuffer_delay_line_witness :
    (RingBuffer.WF
        ({ length := 3, position := 0, data := [0, 0, 0] } : RingBuffer ℚ) ∧
      1 ≤ (3 : Nat) ∧ ([(1 : ℚ), 2]).length = 3 - 1) ∧
    (([(1 : ℚ), 2]).foldl RingBuffer.append
      (RingBuffer.append
        ({ length := 3, position := 0, data := [0, 0, 0] } : RingBuffer ℚ)
        7)).peek = 7 :=
  ⟨⟨by constructor <;> decide, by decide, by decide⟩,
    ringBuffer_delay_line
      ({ length := 3, position := 0, data := [0, 0, 0] } : RingBuffer ℚ)
      7 [1, 2] (by constructor <;> decide) (by decide) (by decide)⟩

/-- **C8.**  `RingBufferFilter_new` (the `tp_new` shared by all three
filter variants) fails and produces no filter object whenever the
requested length exceeds the capacity cap `60 * 44100`. -/
theorem filter_new_rejects_over_capacity (length : Nat) (alpha : ℚ)
    (h : MAX_RING_BUFFER_CAPACITY < length) :
    RingBufferFilter_new (α := ℚ) length alpha = none := by
  simp [RingBufferFilter_new, RingBuffer.create, h]

/-- Witness for `filter_new_rejects_over_capacity` one past the cap. -/
theorem filter_new_rejects_over_capacity_witness :
    MAX_RING_BUFFER_CAPACITY < 2646001 ∧
    RingBufferFilter_new (α := ℚ) 2646001 (9 / 10) = none :=
  ⟨by decide,
    filter_new_rejects_over_capacity 2646001 (9 / 10) (by decide)⟩

/-! ## Filter recurrence lemmas -/

theorem forwardComb_eq_spec {α : Type} [LinearOrderedField α]
    (xs : List α) : ∀ self : RingBufferFilterObject α,
    ForwardCombFilter_filter self xs =
      specFilterRun specForwardCombStep self xs := by
  induction xs with
  | nil => intro self; rfl
  | cons x xs ih =>
      intro self
      simp [ForwardCombFilter_filter, specFilterRun, specForwardCombStep, ih]

theorem backwardComb_eq_spec {α : Type} [LinearOrderedField α]
    (xs : List α) : ∀ self : RingBufferFilterObject α,
    BackwardCombFilter_filter self xs =
      specFilterRun specBackwardCombStep self xs := by
  induction xs with
  | nil => intro self; rfl
  | cons x xs ih =>
      intro self
      simp [BackwardCombFilter_filter, specFilterRun, specBackwardCombStep,
        ih]

theorem echo_eq_spec {α : Type} [LinearOrderedField α]
    (xs : List α) : ∀ self : RingBufferFilterObject α,
    EchoFilter_filter self xs = specFilterRun specEchoStep self xs := by
  induction xs with
  | nil => intro self; rfl
  | cons x xs ih =>
      intro self
      simp [EchoFilter_filter, specFilterRun, specEchoStep, ih]

theorem specFilterRun_length {α : Type} [Zero α]
    (step : α → α → α → α × α) (xs : List α) :
    ∀ self : RingBufferFilterObject α,
      (specFilterRun step self xs).1.length = xs.length := by
  induction xs with
  | nil => intro self; rfl
  | cons x xs ih => intro self; simp [specFilterRun, ih]

/-- **C2.**  Each of the three filters processes a flat 1-D input sequence
element by element in order, with `d = peek()` taken before each step,
producing an output of the same length: ForwardComb outputs
`x[i] + alpha·d` and appends `x[i]`; BackwardComb outputs
`x[i] + alpha·d` and appends the output; Echo outputs `d` and appends
`alpha·d + x[i]`. -/
theorem filters_follow_recurrence_table {α : Type} [LinearOrderedField α]
    (self : RingBufferFilterObject α) (xs : List α) :
    ForwardCombFilter_filter self xs =
        specFilterRun specForwardCombStep self xs ∧
    BackwardCombFilter_filter self xs =
        specFilterRun specBackwardCombStep self xs ∧
    EchoFilter_filter self xs = specFilterRun specEchoStep self xs ∧
    (ForwardCombFilter_filter self xs).1.length = xs.length ∧
    (BackwardCombFilter_filter self xs).1.length = xs.length ∧
    (EchoFilter_filter self xs).1.length = xs.length := by
  refine ⟨forwardComb_eq_spec xs self, backwardComb_eq_spec xs self,
    echo_eq_spec xs self, ?_, ?_, ?_⟩
  · rw [forwardComb_eq_spec xs self]; exact specFilterRun_length _ xs self
  · rw [backwardComb_eq_spec xs self]; exact specFilterRun_length _ xs self
  · rw [echo_eq_spec xs self]; exact specFilterRun_length _ xs self

/-- **C3, counterexample.**  A fresh `EchoFilter` with `length = 3` and
`alpha = 1/2` applied to `[1, 0, 0, 0, 0, 0]` does *not* return
`[0, 0, 0, 1/2, 0, 0]`: the echo filter emits the raw delayed sample and
attenuates only the value written back, so the first echo has full
amplitude. -/
theorem echo_example_spec_value_refuted :
    (RingBufferFilter_new (α := ℚ) 3 (1 / 2)).map
        (fun f => (EchoFilter_filter f [1, 0, 0, 0, 0, 0]).1) ≠
      some [0, 0, 0, 1 / 2, 0, 0] := by
  simp only [RingBufferFilter_new, RingBuffer.create,
    MAX_RING_BUFFER_CAPACITY, EchoFilter_filter, RingBuffer.peek,
    RingBuffer.append, Option.map]
  norm_num

/-- **C3, amended.**  A fresh `EchoFilter` with `length = 3` and
`alpha = 1/2` applied to `[1, 0, 0, 0, 0, 0]` returns
`[0, 0, 0, 1, 0, 0]`. -/
theorem echo_example_output :
    (RingBufferFilter_new (α := ℚ) 3 (1 / 2)).map
        (fun f => (EchoFilter_filter f [1, 0, 0, 0, 0, 0]).1) =
      some [0, 0, 0, 1, 0, 0] := by
  simp only [RingBufferFilter_new, RingBuffer.create,
    MAX_RING_BUFFER_CAPACITY, EchoFilter_filter, RingBuffer.peek,
    RingBuffer.append, Option.map]
  norm_num

/-! ## Envelope state machine -/

/-- **C1.**  One single-sample advance behaves per the stage table: in
Attacking the new value is `attackBase + value·attackCoef`, clamped to `1`
(stage Decaying) when `≥ 1`; in Decaying it is
`decayBase + value·decayCoef`, clamped up to `sustain` (stage Sustaining)
when `≤ sustain`; in Releasing it is `releaseBase + value·releaseCoef`,
clamped to `0` (stage Off, or Attacking when `loop`) when `≤ 0`; in Off
the value holds at `0` (stage Attacking when `loop`); in Sustaining it
holds at `sustain` (stage Releasing when `loop`). -/
theorem envelope_single_sample_matches_stage_table {α : Type}
    [LinearOrderedField α] (e : Envelope α) :
    e.singleSample = specEnvelopeStep e := by
  cases h : e.stage <;>
    simp only [Envelope.singleSample, Envelope.stepAux, specEnvelopeStep,
      h] <;>
    split_ifs <;>
    simp_all

/-- **C5.**  With `loop` false, `gate true` sets the stage to Attacking
exactly when `retrigger` holds or the stage is Off or Releasing, and
`gate false` sets the stage to Releasing exactly when the stage is
Attacking, Decaying or Sustaining; every other case (and every call with
`loop` true) leaves the envelope unchanged, and `gate` never touches any
field except the stage. -/
theorem gate_transition_characterization {α : Type}
    (e : Envelope α) (trigger : Bool) :
    e.gate trigger = { e with stage := specGateStage e trigger } := by
  cases hl : e.loop <;> cases trigger <;>
    simp only [Envelope.gate, Envelope.changeStage, specGateStage, hl] <;>
    split_ifs <;>
    simp_all <;>
    exact (by cases e; simp_all)

/-- **C4, counterexample.**  `Envelope_init` performs no range validation:
called with `attack = -1` (all other arguments in range) it succeeds and
produces an envelope whose `attack` field is `-1`, instead of failing with
an `InvalidArgument` condition. -/
theorem envelope_init_accepts_negative_attack :
    (Envelope_init (-1) 0 0 0 1 (1 / 1000) false false).attack = -1 ∧
    (Envelope_init (-1) 0 0 0 1 (1 / 1000) false false).stage =
      Stage.off := by
  constructor <;> rfl

/-- **C4, amended.**  `Envelope_init` stores every argument unchecked (no
`InvalidArgument` is possible for in-type values): the parameters are taken
as given, `overshoot` is clamped to `[1e-9, 1e9]`, the value starts at `0`
and the stage starts at Off (Attacking when `loop`).  Range validation
happens only in the parameter setters. -/
theorem envelope_init_no_validation
    (attack decay sustain release dt overshoot : ℝ)
    (retrigger loop : Bool) :
    (Envelope_init attack decay sustain release dt overshoot retrigger
        loop).attack = attack ∧
    (Envelope_init attack decay sustain release dt overshoot retrigger
        loop).decay = decay ∧
    (Envelope_init attack decay sustain release dt overshoot retrigger
        loop).sustain = sustain ∧
    (Envelope_init attack decay sustain release dt overshoot retrigger
        loop).release = release ∧
    (Envelope_init attack decay sustain release dt overshoot retrigger
        loop).dt = dt ∧
    (Envelope_init attack decay sustain release dt overshoot retrigger
        loop).overshoot = clip overshoot (1 / 1000000000) 1000000000 ∧
    (Envelope_init attack decay sustain release dt overshoot retrigger
        loop).value = 0 ∧
    (Envelope_init attack decay sustain release dt overshoot retrigger
        loop).stage = (if loop then Stage.attacking else Stage.off) := by
  cases loop <;>
    simp [Envelope_init, Envelope.computeBaseValuesAndCoefficients,
      Envelope.changeStage]

/-- **C9.**  Every out-of-range value passed to a parameter setter
(negative attack/decay/release, sustain outside `[0, 1]`, negative
overshoot) makes the setter fail with an `InvalidArgument` condition while
returning the previous envelope completely unchanged — the C setters
validate before any mutation, so no partial update can occur. -/
theorem setters_validate_before_mutation (e : Envelope ℝ) (v : ℝ) :
    (v < 0 →
      Envelope_set_attack e v = (e, some EnvError.invalidArgument)) ∧
    (v < 0 →
      Envelope_set_decay e v = (e, some EnvError.invalidArgument)) ∧
    (v < 0 →
      Envelope_set_release e v = (e, some EnvError.invalidArgument)) ∧
    (¬ (0 ≤ v ∧ v ≤ 1) →
      Envelope_set_sustain e v = (e, some EnvError.invalidArgument)) ∧
    (v < 0 →
      Envelope_set_overshoot e v = (e, some EnvError.invalidArgument)) := by
  refine ⟨?_, ?_, ?_, ?_, ?_⟩ <;> intro h <;>
    simp [Envelope_set_attack, Envelope_set_decay, Envelope_set_release,
      Envelope_set_sustain, Envelope_set_overshoot, h]

/-- Witness for `setters_validate_before_mutation` at `v = -1` on the
concrete envelope `sampleEnvelope`. -/
theorem setters_validate_before_mutation_witness :
    ((-1 : ℝ) < 0 ∧ ¬ ((0 : ℝ) ≤ -1 ∧ (-1 : ℝ) ≤ 1)) ∧
    Envelope_set_attack sampleEnvelope (-1) =
      (sampleEnvelope, some EnvError.invalidArgument) ∧
    Envelope_set_decay sampleEnvelope (-1) =
      (sampleEnvelope, some EnvError.invalidArgument) ∧
    Envelope_set_release sampleEnvelope (-1) =
      (sampleEnvelope, some EnvError.invalidArgument) ∧
    Envelope_set_sustain sampleEnvelope (-1) =
      (sampleEnvelope, some EnvError.invalidArgument) ∧
    Envelope_set_overshoot sampleEnvelope (-1) =
      (sampleEnvelope, some EnvError.invalidArgument) := by
  have h1 : (-1 : ℝ) < 0 := by norm_num
  have h2 : ¬ ((0 : ℝ) ≤ -1 ∧ (-1 : ℝ) ≤ 1) := by norm_num
  have h := setters_validate_before_mutation sampleEnvelope (-1)
  exact ⟨⟨h1, h2⟩, h.1 h1, h.2.1 h1, h.2.2.1 h1, h.2.2.2.1 h2,
    h.2.2.2.2 h1⟩

/-! ## Envelope value invariant -/

/-- For a positive overshoot, `calculate_exponential_coefficient` always
lands in `[0, 1)`: either the rate is nonpositive and the coefficient is
`0`, or it is `exp` of a negative number. -/
theorem coef_nonneg_lt_one (rate o : ℝ) (ho : 0 < o) :
    0 ≤ calculate_exponential_coefficient rate o ∧
    calculate_exponential_coefficient rate o < 1 := by
  unfold calculate_exponential_coefficient
  split_ifs with h
  · norm_num
  · push_neg at h
    refine ⟨(Real.exp_pos _).le, ?_⟩
    rw [Real.exp_lt_one_iff]
    have hlog : 0 < Real.log ((1 + o) / o) :=
      Real.log_pos ((one_lt_div ho).mpr (by linarith))
    exact div_neg_of_neg_of_pos (by linarith) h

/-- A single-sample advance changes only the stage and the value, so it
preserves well-formedness. -/
theorem singleSample_preserves_wf (e : Envelope ℝ) (h : e.WellFormed) :
    (e.singleSample).2.WellFormed := h

/-- The value stored by `Envelope_single_sample` is the sample it
returns. -/
theorem singleSample_stored_value (e : Envelope ℝ) :
    (e.singleSample).2.value = (e.singleSample).1 := rfl

/-- One single-sample advance of a well-formed envelope keeps the emitted
value in `[0, 1]`: each stage clamps at its boundary before the transient
overshoot past the target is ever emitted. -/
theorem singleSample_bounds (e : Envelope ℝ) (hWF : e.WellFormed)
    (h0 : 0 ≤ e.value) (h1 : e.value ≤ 1) :
    0 ≤ (e.singleSample).1 ∧ (e.singleSample).1 ≤ 1 := by
  obtain ⟨⟨ha, hd, hr, hs0, hs1, hdt, hoL, hoU⟩,
    hac, hab, hdc, hdb, hrc, hrb⟩ := hWF
  have ho : 0 < e.overshoot := lt_of_lt_of_le (by norm_num) hoL
  have hA := coef_nonneg_lt_one (e.attack / e.dt) e.overshoot ho
  have hD := coef_nonneg_lt_one (e.decay / e.dt) e.overshoot ho
  have hR := coef_nonneg_lt_one (e.release / e.dt) e.overshoot ho
  rw [← hac] at hA
  rw [← hdc] at hD
  rw [← hrc] at hR
  obtain ⟨hA0, hA1⟩ := hA
  obtain ⟨hD0, hD1⟩ := hD
  obtain ⟨hR0, hR1⟩ := hR
  show 0 ≤ (e.stepAux).1 ∧ (e.stepAux).1 ≤ 1
  unfold Envelope.stepAux
  cases hst : e.stage <;> simp only [hst]
  · exact ⟨le_refl 0, by norm_num⟩
  · split_ifs with hcl
    · exact ⟨by norm_num, by norm_num⟩
    · push_neg at hcl
      dsimp only
      rw [hab] at hcl ⊢
      refine ⟨?_, le_of_lt hcl⟩
      nlinarith [mul_nonneg h0 hA0,
        mul_nonneg (by linarith : (0 : ℝ) ≤ 1 + e.overshoot)
          (by linarith : (0 : ℝ) ≤ 1 - e.attackCoef)]
  · split_ifs with hcl
    · exact ⟨hs0, hs1⟩
    · push_neg at hcl
      dsimp only
      rw [hdb] at hcl ⊢
      refine ⟨by linarith, ?_⟩
      nlinarith [mul_nonneg (by linarith : (0 : ℝ) ≤ 1 - e.sustain)
          (by linarith : (0 : ℝ) ≤ 1 - e.decayCoef),
        mul_nonneg (by linarith : (0 : ℝ) ≤ 1 - e.value) hD0,
        mul_nonneg ho.le (by linarith : (0 : ℝ) ≤ 1 - e.decayCoef)]
  · exact ⟨hs0, hs1⟩
  · split_ifs with hcl hlp
    · exact ⟨le_refl 0, by norm_num⟩
    · exact ⟨le_refl 0, by norm_num⟩
    · push_neg at hcl
      dsimp only
      rw [hrb] at hcl ⊢
      refine ⟨le_of_lt hcl, ?_⟩
      nlinarith [mul_nonneg (by linarith : (0 : ℝ) ≤ 1 - e.value) hR0,
        mul_nonneg ho.le (by linarith : (0 : ℝ) ≤ 1 - e.releaseCoef)]

/-- Invariant propagated along `Envelope_sample`: starting well-formed
with value in `[0, 1]`, every emitted sample and the final value are in
`[0, 1]`, and the final state is still well-formed. -/
theorem sample_invariant (n : Nat) :
    ∀ e : Envelope ℝ, e.WellFormed → 0 ≤ e.value → e.value ≤ 1 →
      (∀ y ∈ (e.sample n).1, 0 ≤ y ∧ y ≤ 1) ∧
      (e.sample n).2.WellFormed ∧
      0 ≤ (e.sample n).2.value ∧ (e.sample n).2.value ≤ 1 := by
  induction n with
  | zero =>
      intro e hWF h0 h1
      exact ⟨by simp [Envelope.sample], hWF, h0, h1⟩
  | succ n ih =>
      intro e hWF h0 h1
      have hstep := singleSample_bounds e hWF h0 h1
      have hWF' := singleSample_preserves_wf e hWF
      have hval := singleSample_stored_value e
      have hrec := ih (e.singleSample).2 hWF'
        (by rw [hval]; exact hstep.1) (by rw [hval]; exact hstep.2)
      refine ⟨?_, hrec.2.1, hrec.2.2⟩
      intro y hy
      simp only [Envelope.sample, List.mem_cons] at hy
      rcases hy with hy | hy
      · subst hy; exact hstep
      · exact hrec.1 y hy

/-- `Envelope_gate` never touches the value. -/
theorem gate_preserves_value {α : Type} (e : Envelope α) (t : Bool) :
    (e.gate t).value = e.value := by
  unfold Envelope.gate Envelope.changeStage
  split_ifs <;> rfl

/-- **C10.**  For a well-formed envelope (parameters in the documented
ranges, derived fields consistent) whose value lies in `[0, 1]`, the value
still lies in `[0, 1]` after every operation: each single-sample advance,
every element and the final state of `sample(n)`, every `gate` call, and
every successful parameter-setter call — strictly stronger than the
spec's `[-overshoot, 1+overshoot]` bound, because each stage clamps at its
boundary. -/
theorem envelope_value_unit_interval_invariant (e : Envelope ℝ)
    (hWF : e.WellFormed) (h0 : 0 ≤ e.value) (h1 : e.value ≤ 1) :
    (0 ≤ (e.singleSample).2.value ∧ (e.singleSample).2.value ≤ 1) ∧
    (∀ n, ∀ y ∈ (e.sample n).1, 0 ≤ y ∧ y ≤ 1) ∧
    (∀ n, 0 ≤ (e.sample n).2.value ∧ (e.sample n).2.value ≤ 1) ∧
    (∀ t, 0 ≤ (e.gate t).value ∧ (e.gate t).value ≤ 1) ∧
    (∀ v, (Envelope_set_attack e v).2 = none →
      0 ≤ (Envelope_set_attack e v).1.value ∧
        (Envelope_set_attack e v).1.value ≤ 1) ∧
    (∀ v, (Envelope_set_decay e v).2 = none →
      0 ≤ (Envelope_set_decay e v).1.value ∧
        (Envelope_set_decay e v).1.value ≤ 1) ∧
    (∀ v, (Envelope_set_sustain e v).2 = none →
      0 ≤ (Envelope_set_sustain e v).1.value ∧
        (Envelope_set_sustain e v).1.value ≤ 1) ∧
    (∀ v, (Envelope_set_release e v).2 = none →
      0 ≤ (Envelope_set_release e v).1.value ∧
        (Envelope_set_release e v).1.value ≤ 1) ∧
    (∀ v, (Envelope_set_overshoot e v).2 = none →
      0 ≤ (Envelope_set_overshoot e v).1.value ∧
        (Envelope_set_overshoot e v).1.value ≤ 1) := by
  have hstep := singleSample_bounds e hWF h0 h1
  have hval := singleSample_stored_value e
  refine ⟨⟨by rw [hval]; exact hstep.1, by rw [hval]; exact hstep.2⟩,
    ?_, ?_, ?_, ?_, ?_, ?_, ?_, ?_⟩
  · intro n; exact (sample_invariant n e hWF h0 h1).1
  · intro n; exact (sample_invariant n e hWF h0 h1).2.2
  · intro t; rw [gate_preserves_value]; exact ⟨h0, h1⟩
  · intro v hv
    by_cases h : v < 0
    · simp [Envelope_set_attack, h] at hv
    · simp only [Envelope_set_attack, if_neg h]; exact ⟨h0, h1⟩
  · intro v hv
    by_cases h : v < 0
    · simp [Envelope_set_decay, h] at hv
    · simp only [Envelope_set_decay, if_neg h]; exact ⟨h0, h1⟩
  · intro v hv
    by_cases h : (0 : ℝ) ≤ v ∧ v ≤ 1
    · simp only [Envelope_set_sustain, if_neg (not_not.mpr h)]
      exact ⟨h0, h1⟩
    · simp [Envelope_set_sustain, h] at hv
  · intro v hv
    by_cases h : v < 0
    · simp [Envelope_set_release, h] at hv
    · simp only [Envelope_set_release, if_neg h]; exact ⟨h0, h1⟩
  · intro v hv
    by_cases h : v < 0
    · simp [Envelope_set_overshoot, h] at hv
    · simp only [Envelope_set_overshoot, if_neg h]; exact ⟨h0, h1⟩

/-- The concrete envelope `sampleEnvelope` is well-formed. -/
theorem sampleEnvelope_wellFormed : sampleEnvelope.WellFormed := by
  constructor
  · simp only [Envelope.ParamsInRange, sampleEnvelope]
    norm_num
  · simp only [Envelope.CoefsConsistent, sampleEnvelope,
      calculate_exponential_coefficient]
    norm_num

/-- Witness for `envelope_value_unit_interval_invariant` at the concrete
well-formed envelope `sampleEnvelope`. -/
theorem envelope_value_unit_interval_invariant_witness :
    (sampleEnvelope.WellFormed ∧ 0 ≤ sampleEnvelope.value ∧
      sampleEnvelope.value ≤ 1) ∧
    (0 ≤ (sampleEnvelope.singleSample).2.value ∧
      (sampleEnvelope.singleSample).2.value ≤ 1) := by
  have hWF := sampleEnvelope_wellFormed
  have h0 : 0 ≤ sampleEnvelope.value := by norm_num [sampleEnvelope]
  have h1 : sampleEnvelope.value ≤ 1 := by norm_num [sampleEnvelope]
  exact ⟨⟨hWF, h0, h1⟩,
    (envelope_value_unit_interval_invariant sampleEnvelope hWF h0 h1).1⟩

/-- **C7.**  For a well-formed envelope (parameters in the documented
ranges, derived fields consistent) whose value lies in `[0, 1]` — the
spec's documented state invariant — every element of `sample(n)` lies
within `[-overshoot, 1 + overshoot]`; a sample emitted while the stage is
Off equals exactly `0` and one emitted while the stage is Sustaining
equals exactly `sustain`. -/
theorem sample_output_bounds (e : Envelope ℝ) (hWF : e.WellFormed)
    (h0 : 0 ≤ e.value) (h1 : e.value ≤ 1) :
    (∀ n, ∀ y ∈ (e.sample n).1,
      -e.overshoot ≤ y ∧ y ≤ 1 + e.overshoot) ∧
    (e.stage = Stage.off → (e.singleSample).1 = 0) ∧
    (e.stage = Stage.sustaining → (e.singleSample).1 = e.sustain) := by
  have ho : 0 < e.overshoot := by
    obtain ⟨⟨_, _, _, _, _, _, hoL, _⟩, _⟩ := hWF
    linarith [(by norm_num : (0 : ℝ) < 1 / 1000000000)]
  refine ⟨?_, ?_, ?_⟩
  · intro n y hy
    have hb := (sample_invariant n e hWF h0 h1).1 y hy
    exact ⟨by linarith [hb.1], by linarith [hb.2]⟩
  · intro hst
    show (e.stepAux).1 = 0
    unfold Envelope.stepAux
    simp [hst]
  · intro hst
    show (e.stepAux).1 = e.sustain
    unfold Envelope.stepAux
    simp [hst]

/-- Witness for `sample_output_bounds` at the concrete well-formed
envelope `sampleEnvelope` (whose stage is Off). -/
theorem sample_output_bounds_witness :
    (sampleEnvelope.WellFormed ∧ 0 ≤ sampleEnvelope.value ∧
      sampleEnvelope.value ≤ 1 ∧ sampleEnvelope.stage = Stage.off) ∧
    ((∀ n, ∀ y ∈ (sampleEnvelope.sample n).1,
        -sampleEnvelope.overshoot ≤ y ∧
          y ≤ 1 + sampleEnvelope.overshoot) ∧
      (sampleEnvelope.singleSample).1 = 0) := by
  have hWF := sampleEnvelope_wellFormed
  have h0 : 0 ≤ sampleEnvelope.value := by norm_num [sampleEnvelope]
  have h1 : sampleEnvelope.value ≤ 1 := by norm_num [sampleEnvelope]
  have hst : sampleEnvelope.stage = Stage.off := rfl
  have h := sample_output_bounds sampleEnvelope hWF h0 h1
  exact ⟨⟨hWF, h0, h1, hst⟩, h.1, h.2.1 hst⟩

end Klang
